import Mathlib

/-!
Verification of the tokenizer facade declared in src/include/tokenizers_cpp.h.

The header declares the abstract class Tokenizer.  Its pure virtual methods
(Encode with flag, Decode with flag, GetVocabSize, IdToToken, TokenToId) are
the backend primitives; the header itself supplies default implementations of
the convenience overloads (Encode/Decode without flag) and of the batch
operations (EncodeBatch/DecodeBatch, with and without flag) as sequential
loops over the per-item primitives.

Shallow embedding: an abstract Tokenizer instance is a record of its backend
primitives as pure functions (std::string becomes String, int32_t becomes Int,
std::vector becomes List).  The default methods of the header are embedded as
functions over such a record, following the loops of the source line by line.
-/

namespace Tokenizers

/-- The backend primitives of class Tokenizer: the pure virtual methods of
src/include/tokenizers_cpp.h (lines 31, 72, 110, 116, 121).  A concrete
backend supplies these; the facade builds everything else from them. -/
structure Tokenizer where
  Encode : String → Bool → List Int
  Decode : List Int → Bool → String
  GetVocabSize : Nat
  IdToToken : Int → String
  TokenToId : String → Int

/-- Default one-argument overload of Encode (header line 38):
delegates to the two-argument form with add_special_tokens = false. -/
def Tokenizer.EncodeDefault (tok : Tokenizer) (text : String) : List Int :=
  tok.Encode text false

/-- Default one-argument overload of Decode (header line 79):
delegates to the two-argument form with skip_special_tokens = false. -/
def Tokenizer.DecodeDefault (tok : Tokenizer) (ids : List Int) : String :=
  tok.Decode ids false

/-- Default EncodeBatch fallback (header lines 46-55): a sequential loop that
pushes Encode of each text, in input order, onto the result vector. -/
def Tokenizer.EncodeBatch (tok : Tokenizer) : List String → Bool → List (List Int)
  | [], _ => []
  | text :: rest, add => tok.Encode text add :: Tokenizer.EncodeBatch tok rest add

/-- Default DecodeBatch fallback (header lines 87-96): a sequential loop that
pushes Decode of each id-sequence, in input order, onto the result vector. -/
def Tokenizer.DecodeBatch (tok : Tokenizer) : List (List Int) → Bool → List String
  | [], _ => []
  | ids :: rest, skip => tok.Decode ids skip :: Tokenizer.DecodeBatch tok rest skip

/-- Default one-argument overload of EncodeBatch (header lines 62-64). -/
def Tokenizer.EncodeBatchDefault (tok : Tokenizer) (texts : List String) : List (List Int) :=
  tok.EncodeBatch texts false

/-- Default one-argument overload of DecodeBatch (header lines 103-105). -/
def Tokenizer.DecodeBatchDefault (tok : Tokenizer) (idsList : List (List Int)) : List String :=
  tok.DecodeBatch idsList false

/-- The sequential EncodeBatch loop is a map of Encode over the input list. -/
theorem Tokenizer.encodeBatch_eq_map (tok : Tokenizer) (texts : List String) (add : Bool) :
    tok.EncodeBatch texts add = texts.map (fun text => tok.Encode text add) := by
  induction texts with
  | nil => rfl
  | cons text rest ih => simp [Tokenizer.EncodeBatch, ih]

/-- The sequential DecodeBatch loop is a map of Decode over the input list. -/
theorem Tokenizer.decodeBatch_eq_map (tok : Tokenizer) (idsList : List (List Int)) (skip : Bool) :
    tok.DecodeBatch idsList skip = idsList.map (fun ids => tok.Decode ids skip) := by
  induction idsList with
  | nil => rfl
  | cons ids rest ih => simp [Tokenizer.DecodeBatch, ih]

/-- C1: for every list of texts T and every boolean b, the default
EncodeBatch(T, b) returns a list of the same length as T whose i-th element
equals Encode(T[i], b), for every index i. -/
theorem encodeBatch_length_and_elements (tok : Tokenizer) (T : List String) (b : Bool) :
    (tok.EncodeBatch T b).length = T.length ∧
    ∀ i : Nat, (tok.EncodeBatch T b)[i]? = (T[i]?).map (fun text => tok.Encode text b) := by
  rw [Tokenizer.encodeBatch_eq_map]
  refine ⟨List.length_map _ _, fun i => ?_⟩
  rw [List.getElem?_map]

/-- C2: for every list of id-sequences I and every boolean b, the default
DecodeBatch(I, b) returns a list of the same length as I whose i-th element
equals Decode(I[i], b), for every index i. -/
theorem decodeBatch_length_and_elements (tok : Tokenizer) (I : List (List Int)) (b : Bool) :
    (tok.DecodeBatch I b).length = I.length ∧
    ∀ i : Nat, (tok.DecodeBatch I b)[i]? = (I[i]?).map (fun ids => tok.Decode ids b) := by
  rw [Tokenizer.decodeBatch_eq_map]
  refine ⟨List.length_map _ _, fun i => ?_⟩
  rw [List.getElem?_map]

/-- C3: the one-argument convenience forms equal the two-argument forms with
the flag false: Encode(t) = Encode(t, false) and Decode(ids) = Decode(ids, false). -/
theorem default_flag_forms (tok : Tokenizer) (t : String) (ids : List Int) :
    tok.EncodeDefault t = tok.Encode t false ∧ tok.DecodeDefault ids = tok.Decode ids false :=
  ⟨rfl, rfl⟩

/-- C4: the one-argument batch forms equal the two-argument batch forms with
the flag false: EncodeBatch(T) = EncodeBatch(T, false) and
DecodeBatch(I) = DecodeBatch(I, false). -/
theorem default_flag_batch_forms (tok : Tokenizer) (T : List String) (I : List (List Int)) :
    tok.EncodeBatchDefault T = tok.EncodeBatch T false ∧
    tok.DecodeBatchDefault I = tok.DecodeBatch I false :=
  ⟨rfl, rfl⟩

/-- C5: batch operations preserve input order and input cardinality:
len(EncodeBatch(T, b)) = len(T) and len(DecodeBatch(I, b)) = len(I), and the
element at position i is derived from the input element at position i alone
(no element dropped, duplicated, or reordered, including when a per-item
result is empty). -/
theorem batch_order_and_cardinality (tok : Tokenizer) (T : List String)
    (I : List (List Int)) (b : Bool) :
    (tok.EncodeBatch T b).length = T.length ∧
    (tok.DecodeBatch I b).length = I.length ∧
    (∀ i : Nat, (tok.EncodeBatch T b)[i]? = (T[i]?).map (fun text => tok.Encode text b)) ∧
    (∀ i : Nat, (tok.DecodeBatch I b)[i]? = (I[i]?).map (fun ids => tok.Decode ids b)) := by
  rw [Tokenizer.encodeBatch_eq_map, Tokenizer.decodeBatch_eq_map]
  exact ⟨List.length_map _ _, List.length_map _ _,
    fun i => List.getElem?_map .., fun i => List.getElem?_map ..⟩

/-- C10: the default batch implementations are homomorphisms over list
concatenation, and the empty input list yields the empty output list. -/
theorem batch_concat_homomorphism (tok : Tokenizer) (T₁ T₂ : List String)
    (I₁ I₂ : List (List Int)) (b : Bool) :
    tok.EncodeBatch (T₁ ++ T₂) b = tok.EncodeBatch T₁ b ++ tok.EncodeBatch T₂ b ∧
    tok.DecodeBatch (I₁ ++ I₂) b = tok.DecodeBatch I₁ b ++ tok.DecodeBatch I₂ b ∧
    tok.EncodeBatch [] b = [] ∧ tok.DecodeBatch [] b = [] := by
  simp [Tokenizer.encodeBatch_eq_map, Tokenizer.decodeBatch_eq_map]

/-- The EncodeBatch fallback loop of header lines 46-55 when the per-item
Encode call may raise a fault: in C++ an exception thrown by Encode propagates
out of the loop, discarding the accumulated result vector; the fault is
modelled as the error branch of Except, and the loop processes items strictly
in input order. -/
def EncodeBatchExc {ε : Type} (enc : String → Bool → Except ε (List Int)) :
    List String → Bool → Except ε (List (List Int))
  | [], _ => Except.ok []
  | text :: rest, add =>
    match enc text add with
    | Except.error e => Except.error e
    | Except.ok ids =>
      match EncodeBatchExc enc rest add with
      | Except.error e => Except.error e
      | Except.ok tail => Except.ok (ids :: tail)

/-- The DecodeBatch fallback loop of header lines 87-96 when the per-item
Decode call may raise a fault, modelled like EncodeBatchExc. -/
def DecodeBatchExc {ε : Type} (dec : List Int → Bool → Except ε String) :
    List (List Int) → Bool → Except ε (List String)
  | [], _ => Except.ok []
  | ids :: rest, skip =>
    match dec ids skip with
    | Except.error e => Except.error e
    | Except.ok text =>
      match DecodeBatchExc dec rest skip with
      | Except.error e => Except.error e
      | Except.ok tail => Except.ok (text :: tail)

/-- A fault at the head of the fallible encode loop aborts it at once. -/
theorem encodeBatchExc_cons_error {ε : Type} (enc : String → Bool → Except ε (List Int))
    (text : String) (rest : List String) (add : Bool) (e : ε)
    (h : enc text add = Except.error e) :
    EncodeBatchExc enc (text :: rest) add = Except.error e := by
  simp [EncodeBatchExc, h]

/-- A fault at the head of the fallible decode loop aborts it at once. -/
theorem decodeBatchExc_cons_error {ε : Type} (dec : List Int → Bool → Except ε String)
    (ids : List Int) (rest : List (List Int)) (skip : Bool) (e : ε)
    (h : dec ids skip = Except.error e) :
    DecodeBatchExc dec (ids :: rest) skip = Except.error e := by
  simp [DecodeBatchExc, h]

/-- C7: under the default sequential batch implementation, if the per-item
Encode (resp. Decode) call faults on the element at the least index i of the
input list, then EncodeBatch (resp. DecodeBatch) faults at that point: no
result list is returned (the whole loop yields the error), and elements after
index i are not processed (the outcome is the same for every continuation of
the list past index i). -/
theorem batch_fault_aborts (ε : Type) (b : Bool) :
    (∀ (enc : String → Bool → Except ε (List Int)) (T : List String) (i : Nat) (e : ε)
      (hi : i < T.length),
      (∀ j (hj : j < i), (enc (T.get ⟨j, Nat.lt_trans hj hi⟩) b).isOk = true) →
      enc (T.get ⟨i, hi⟩) b = Except.error e →
      EncodeBatchExc enc T b = Except.error e ∧
      ∀ rest, EncodeBatchExc enc (T.take (i + 1) ++ rest) b = Except.error e) ∧
    (∀ (dec : List Int → Bool → Except ε String) (I : List (List Int)) (i : Nat) (e : ε)
      (hi : i < I.length),
      (∀ j (hj : j < i), (dec (I.get ⟨j, Nat.lt_trans hj hi⟩) b).isOk = true) →
      dec (I.get ⟨i, hi⟩) b = Except.error e →
      DecodeBatchExc dec I b = Except.error e ∧
      ∀ rest, DecodeBatchExc dec (I.take (i + 1) ++ rest) b = Except.error e) := by
  constructor
  · intro enc T
    induction T with
    | nil => intro i e hi; exact absurd hi (Nat.not_lt_zero i)
    | cons text rest ih =>
      intro i e hi hok herr
      cases i with
      | zero =>
        refine ⟨encodeBatchExc_cons_error enc text rest b e herr, fun tail => ?_⟩
        exact encodeBatchExc_cons_error enc text tail b e herr
      | succ j =>
        have hok0 : (enc text b).isOk = true := hok 0 (Nat.succ_pos j)
        obtain ⟨ids, hids⟩ : ∃ ids, enc text b = Except.ok ids := by
          cases h : enc text b with
          | error e => rw [h] at hok0; exact absurd hok0 (by simp [Except.isOk, Except.toBool])
          | ok ids => exact ⟨ids, rfl⟩
        have hj : j < rest.length := Nat.lt_of_succ_lt_succ hi
        have hrec := ih j e hj
          (fun k hk => hok (k + 1) (Nat.succ_lt_succ hk)) herr
        constructor
        · simp only [EncodeBatchExc, hids, hrec.1]
        · intro tail
          simp only [List.take, List.cons_append, EncodeBatchExc, hids, List.append_eq,
            hrec.2 tail]
  · intro dec I
    induction I with
    | nil => intro i e hi; exact absurd hi (Nat.not_lt_zero i)
    | cons ids rest ih =>
      intro i e hi hok herr
      cases i with
      | zero =>
        refine ⟨decodeBatchExc_cons_error dec ids rest b e herr, fun tail => ?_⟩
        exact decodeBatchExc_cons_error dec ids tail b e herr
      | succ j =>
        have hok0 : (dec ids b).isOk = true := hok 0 (Nat.succ_pos j)
        obtain ⟨text, htext⟩ : ∃ text, dec ids b = Except.ok text := by
          cases h : dec ids b with
          | error e => rw [h] at hok0; exact absurd hok0 (by simp [Except.isOk, Except.toBool])
          | ok text => exact ⟨text, rfl⟩
        have hj : j < rest.length := Nat.lt_of_succ_lt_succ hi
        have hrec := ih j e hj
          (fun k hk => hok (k + 1) (Nat.succ_lt_succ hk)) herr
        constructor
        · simp only [DecodeBatchExc, htext, hrec.1]
        · intro tail
          simp only [List.take, List.cons_append, DecodeBatchExc, htext, List.append_eq,
            hrec.2 tail]

/-- A fallible per-item encoder for exercising the loop: faults on the
text "bad", succeeds elsewhere. -/
def encFault : String → Bool → Except Unit (List Int) :=
  fun text _ => if text = "bad" then Except.error () else Except.ok []

/-- A fallible per-item decoder for exercising the loop: faults on the
id-sequence [2], succeeds elsewhere. -/
def decFault : List Int → Bool → Except Unit String :=
  fun ids _ => if ids = [2] then Except.error () else Except.ok ""

/-- Witness for C7 at a concrete input: the fault on the middle element
aborts both loops, whatever follows it. -/
theorem batch_fault_aborts_witness :
    EncodeBatchExc encFault ["good", "bad", "tail"] false = Except.error () ∧
    EncodeBatchExc encFault (["good", "bad"] ++ ["other"]) false = Except.error () ∧
    DecodeBatchExc decFault [[1], [2], [3]] false = Except.error () ∧
    DecodeBatchExc decFault ([[1], [2]] ++ [[9]]) false = Except.error () := by
  have he := (batch_fault_aborts Unit false).1 encFault ["good", "bad", "tail"] 1 ()
    (by decide)
    (fun j hj => by
      have hj0 : j = 0 := Nat.lt_one_iff.mp hj
      subst hj0
      rfl)
    (by rfl)
  have hd := (batch_fault_aborts Unit false).2 decFault [[1], [2], [3]] 1 ()
    (by decide)
    (fun j hj => by
      have hj0 : j = 0 := Nat.lt_one_iff.mp hj
      subst hj0
      rfl)
    (by rfl)
  exact ⟨he.1, he.2 ["other"], hd.1, hd.2 [[9]]⟩

/-- The backend primitives with explicit instance state: the virtual methods
of the header are not const-qualified, so a backend could in principle thread
mutable instance state through each call; a call takes the current state and
returns its result together with the successor state. -/
structure StatefulTokenizer (σ : Type) where
  EncodeS : σ → String → Bool → List Int × σ
  DecodeS : σ → List Int → Bool → String × σ

/-- The EncodeBatch fallback loop of header lines 46-55 over the stateful
primitives: each iteration runs Encode on the current state and threads the
successor state into the next iteration. -/
def StatefulTokenizer.EncodeBatchS {σ : Type} (tok : StatefulTokenizer σ) :
    σ → List String → Bool → List (List Int) × σ
  | s, [], _ => ([], s)
  | s, text :: rest, add =>
    let step := tok.EncodeS s text add
    let tail := StatefulTokenizer.EncodeBatchS tok step.2 rest add
    (step.1 :: tail.1, tail.2)

/-- The DecodeBatch fallback loop of header lines 87-96 over the stateful
primitives, threading state like EncodeBatchS. -/
def StatefulTokenizer.DecodeBatchS {σ : Type} (tok : StatefulTokenizer σ) :
    σ → List (List Int) → Bool → List String × σ
  | s, [], _ => ([], s)
  | s, ids :: rest, skip =>
    let step := tok.DecodeS s ids skip
    let tail := StatefulTokenizer.DecodeBatchS tok step.2 rest skip
    (step.1 :: tail.1, tail.2)

/-- Modelled from the spec: the requirement that no instance method mutates
vocabulary, merge tables, or other shared engine state.  The concrete backend
engines behind the pure virtual methods are not under src/; a conformant
backend leaves the instance state unchanged by every per-item call. -/
def StatefulTokenizer.Stateless {σ : Type} (tok : StatefulTokenizer σ) : Prop :=
  (∀ s text add, (tok.EncodeS s text add).2 = s) ∧
  (∀ s ids skip, (tok.DecodeS s ids skip).2 = s)

/-- A stateless backend's batch encode loop never moves the state. -/
theorem StatefulTokenizer.encodeBatchS_state {σ : Type} (tok : StatefulTokenizer σ)
    (h : tok.Stateless) (s : σ) (T : List String) (b : Bool) :
    (tok.EncodeBatchS s T b).2 = s := by
  induction T generalizing s with
  | nil => rfl
  | cons text rest ih =>
    simp only [StatefulTokenizer.EncodeBatchS, h.1 s text b, ih]

/-- A stateless backend's batch decode loop never moves the state. -/
theorem StatefulTokenizer.decodeBatchS_state {σ : Type} (tok : StatefulTokenizer σ)
    (h : tok.Stateless) (s : σ) (I : List (List Int)) (b : Bool) :
    (tok.DecodeBatchS s I b).2 = s := by
  induction I generalizing s with
  | nil => rfl
  | cons ids rest ih =>
    simp only [StatefulTokenizer.DecodeBatchS, h.2 s ids b, ih]

/-- C9: every operation on an instance whose backend mutates no state is
deterministic: a second invocation of Encode, Decode, EncodeBatch, or
DecodeBatch, run on the state left behind by the first invocation with
identical arguments, produces an identical output, and the batch loops
themselves leave the state untouched. -/
theorem operations_deterministic {σ : Type} (tok : StatefulTokenizer σ)
    (h : tok.Stateless) (s : σ) (t : String) (ids : List Int)
    (T : List String) (I : List (List Int)) (b : Bool) :
    (tok.EncodeS (tok.EncodeS s t b).2 t b).1 = (tok.EncodeS s t b).1 ∧
    (tok.DecodeS (tok.DecodeS s ids b).2 ids b).1 = (tok.DecodeS s ids b).1 ∧
    (tok.EncodeBatchS (tok.EncodeBatchS s T b).2 T b).1 = (tok.EncodeBatchS s T b).1 ∧
    (tok.DecodeBatchS (tok.DecodeBatchS s I b).2 I b).1 = (tok.DecodeBatchS s I b).1 ∧
    (tok.EncodeBatchS s T b).2 = s ∧
    (tok.DecodeBatchS s I b).2 = s := by
  refine ⟨?_, ?_, ?_, ?_, tok.encodeBatchS_state h s T b, tok.decodeBatchS_state h s I b⟩
  · rw [h.1 s t b]
  · rw [h.2 s ids b]
  · rw [tok.encodeBatchS_state h s T b]
  · rw [tok.decodeBatchS_state h s I b]

/-- A concrete stateless stateful backend for exercising the determinism
theorem: it counts nothing and echoes fixed results. -/
def constStateful : StatefulTokenizer Nat :=
  { EncodeS := fun s _ _ => ([7], s), DecodeS := fun s _ _ => ("x", s) }

/-- Witness for C9 at a concrete input: repeated invocations on the constant
backend agree and its batch loops keep the state at 0. -/
theorem operations_deterministic_witness :
    (constStateful.EncodeS (constStateful.EncodeS 0 "a" false).2 "a" false).1 =
      (constStateful.EncodeS 0 "a" false).1 ∧
    (constStateful.EncodeBatchS 0 ["a", "b"] false).2 = 0 := by
  have h := operations_deterministic constStateful ⟨fun _ _ _ => rfl, fun _ _ _ => rfl⟩
    0 "a" [1] ["a", "b"] [[1]] false
  exact ⟨h.1, h.2.2.2.2.1⟩

/-- Modelled from the spec: the concrete backend engines implementing the
pure virtual Encode, Decode, IdToToken, TokenToId are not under src/ (the
header declares them only).  Following the spec's byte-level escapement
fallback and its end-to-end scenario, this models a conformant lossless
unit-level backend: every character is one vocabulary unit whose id is its
code point; bosId and eosId are the structural begin/end markers, placed
just past the code-point range. -/
def bosId : Int := 1114112

/-- The structural end-of-sequence marker id of the modelled backend. -/
def eosId : Int := 1114113

/-- Encode of the modelled backend: each character becomes its code point;
with add_special_tokens the structural markers wrap the sequence. -/
def unitEncode (text : String) (add : Bool) : List Int :=
  let core := text.data.map (fun c => (c.toNat : Int))
  if add then bosId :: (core ++ [eosId]) else core

/-- The canonical string form of an id in the modelled backend: the literal
marker text for the structural ids, the one-character string for a valid code
point, and the empty string for every other id. -/
def idForm (id : Int) : String :=
  if id = bosId then "<s>"
  else if id = eosId then "</s>"
  else if 0 ≤ id ∧ Nat.isValidChar id.toNat then String.singleton (Char.ofNat id.toNat)
  else ""

/-- Concatenation of a list of texts, front to back. -/
def concatTexts : List String → String
  | [] => ""
  | s :: rest => s ++ concatTexts rest

/-- Decode of the modelled backend: each id contributes its string form, in
order; with skip_special_tokens the structural ids are dropped first. -/
def unitDecode (ids : List Int) (skip : Bool) : String :=
  let kept := if skip then ids.filter (fun id => !(id == bosId || id == eosId)) else ids
  concatTexts (kept.map idForm)

/-- TokenToId of the modelled backend: exact match against the marker texts
and the one-character strings; every other string is absent and yields -1. -/
def unitTokenToId (token : String) : Int :=
  if token = "<s>" then bosId
  else if token = "</s>" then eosId
  else
    match token.data with
    | [c] => (c.toNat : Int)
    | _ => -1

/-- The modelled backend assembled as a Tokenizer instance: code points
0 to 1114111 plus the two structural markers. -/
def unitTokenizer : Tokenizer :=
  { Encode := unitEncode
    Decode := unitDecode
    GetVocabSize := 1114114
    IdToToken := idForm
    TokenToId := unitTokenToId }

/-- Concatenating the singleton strings of a character list rebuilds the
string over that list. -/
theorem concatTexts_map_singleton (cs : List Char) :
    concatTexts (cs.map String.singleton) = String.mk cs := by
  induction cs with
  | nil => rfl
  | cons c rest ih =>
    apply String.ext
    simp only [List.map, concatTexts, ih, String.data_append]
    simp [String.singleton]

/-- The string form of a character's code point is that character alone. -/
theorem idForm_coe_toNat (c : Char) : idForm ((c.toNat : Nat) : Int) = String.singleton c := by
  have hval : Nat.isValidChar c.toNat := c.valid
  have hlt : c.toNat < 1114112 := by
    rcases hval with h | h
    · omega
    · omega
  unfold idForm
  rw [if_neg (by simp [bosId]; omega), if_neg (by simp [eosId]; omega),
    if_pos ⟨Int.ofNat_nonneg c.toNat, by simpa using hval⟩]
  simp [Char.ofNat_toNat]

/-- C6: for every text t over the modelled conformant backend's supported
alphabet (every string), Decode(Encode(t, false), false) reproduces t
exactly; the backend has no lossy normalization. -/
theorem decode_encode_round_trip (t : String) :
    unitTokenizer.Decode (unitTokenizer.Encode t false) false = t := by
  show unitDecode (unitEncode t false) false = t
  unfold unitEncode unitDecode
  simp only [if_neg Bool.false_ne_true, Bool.false_eq_true, if_false, List.map_map]
  have : (idForm ∘ fun c : Char => ((c.toNat : Nat) : Int)) = String.singleton := by
    funext c
    exact idForm_coe_toNat c
  rw [this, concatTexts_map_singleton]

/-- Membership in the vocabulary of the modelled backend: the strings that
have an id are the two marker texts and the one-character strings. -/
def unitVocabMember (token : String) : Prop :=
  token = "<s>" ∨ token = "</s>" ∨ token.data.length = 1

instance (token : String) : Decidable (unitVocabMember token) := by
  unfold unitVocabMember
  infer_instance

/-- An id of the modelled backend that has a string form: a structural
marker or a valid code point.  Every other id is out of range or formless. -/
def unitHasForm (id : Int) : Prop :=
  id = bosId ∨ id = eosId ∨ (0 ≤ id ∧ Nat.isValidChar id.toNat)

instance (id : Int) : Decidable (unitHasForm id) := by
  unfold unitHasForm
  infer_instance

/-- C8: on the modelled conformant instance, TokenToId of a string absent
from the vocabulary returns the sentinel -1, and IdToToken of an id that is
out of range or has no string form returns the empty string; both lookups
are total functions, so neither case raises a fault. -/
theorem lookup_miss_sentinels :
    (∀ token : String, ¬ unitVocabMember token → unitTokenizer.TokenToId token = -1) ∧
    (∀ id : Int, ¬ unitHasForm id → unitTokenizer.IdToToken id = "") := by
  constructor
  · intro token h
    rw [unitVocabMember, not_or, not_or] at h
    obtain ⟨h1, h2, h3⟩ := h
    show unitTokenToId token = -1
    unfold unitTokenToId
    rw [if_neg h1, if_neg h2]
    cases hdata : token.data with
    | nil => rfl
    | cons c cs =>
      cases cs with
      | nil => exact absurd (by rw [hdata]; rfl) h3
      | cons d ds => rfl
  · intro id h
    rw [unitHasForm, not_or, not_or] at h
    obtain ⟨h1, h2, h3⟩ := h
    show idForm id = ""
    unfold idForm
    rw [if_neg h1, if_neg h2, if_neg h3]

/-- Witness for C8 at concrete inputs: the two-character string "ab" is
absent from the vocabulary, and -7 is out of range. -/
theorem lookup_miss_sentinels_witness :
    unitTokenizer.TokenToId "ab" = -1 ∧ unitTokenizer.IdToToken (-7) = "" :=
  ⟨lookup_miss_sentinels.1 "ab" (by decide),
   lookup_miss_sentinels.2 (-7) (by decide)⟩

end Tokenizers
